import Mathlib

/-!
Verification of the two computation kernels of this repository against its
natural-language specification.

The development shallowly embeds the algorithmic core of the two tools:

* `src/whitebox_tools/src/tools/gis_analysis/cost_pathway.rs`
  (flow-path accumulation over a destination grid and a D8 backlink grid);
* `src/whitebox_tools/src/tools/lidar_analysis/lidar_idw_interpolation.rs`
  (point binning, row partition and per-cell IDW interpolation).

Machine doubles are embedded as `ℚ` (the claims under scrutiny concern
control flow, table lookups and exact identities, not rounding), `isize`
grid coordinates as `ℤ`, and the unbounded `while` walk of the cost-pathway
tool as fuel-indexed recursion.  The external raster collaborator (the
`raster` crate is not part of this repository's sources) is modelled from
the spec, §3 "Grid".
-/

/-- Grid: 2D scalar field with a nodata sentinel, from spec §3; cell values
are doubles, embedded as `ℚ`.  `data` is the backing store; all access goes
through `Grid.get` / `Grid.set`. -/
structure Grid where
  rows : ℕ
  cols : ℕ
  nodata : ℚ
  data : ℤ → ℤ → ℚ

/-- Coordinate `(y, x)` = (row, col) lies inside the grid. -/
def Grid.inBounds (g : Grid) (y x : ℤ) : Prop :=
  0 ≤ y ∧ y < (g.rows : ℤ) ∧ 0 ≤ x ∧ x < (g.cols : ℤ)

instance (g : Grid) (y x : ℤ) : Decidable (g.inBounds y x) := by
  unfold Grid.inBounds
  infer_instance

/-- Modelled from the spec: the raster collaborator (the `raster` crate is
not under `src/`) supplies cell reads; spec §3 gives the nodata sentinel,
and an out-of-bounds read yields the grid's nodata value. -/
def Grid.get (g : Grid) (y x : ℤ) : ℚ :=
  if g.inBounds y x then g.data y x else g.nodata

/-- Modelled from the spec: cell write of the raster collaborator; an
out-of-bounds write is a no-op. -/
def Grid.set (g : Grid) (y x : ℤ) (v : ℚ) : Grid :=
  if g.inBounds y x then
    { g with data := fun y2 x2 => if y2 = y ∧ x2 = x then v else g.data y2 x2 }
  else g

/-- Modelled from the spec: `increment` of spec §3 "Grid": incrementing a
nodata cell sets it to the increment amount rather than nodata + amount. -/
def Grid.increment (g : Grid) (y x : ℤ) (v : ℚ) : Grid :=
  if g.get y x = g.nodata then g.set y x v else g.set y x (g.get y x + v)

/-! Flow-path accumulator (`cost_pathway.rs`, `run`).  The direction decode
uses the source's `dx`/`dy` offset arrays and the 129-entry `pntr_matches`
array, whose unset entries are `0`. -/

/-- Column offsets, `cost_pathway.rs` line 146. -/
def dxArr : List ℤ := [1, 1, 1, 0, -1, -1, -1, 0]

/-- Row offsets, `cost_pathway.rs` line 147. -/
def dyArr : List ℤ := [-1, 0, 1, 1, 1, 0, -1, -1]

/-- The `pntr_matches` array of `cost_pathway.rs` lines 148-158: 129 entries,
all initialised to `0`, with the eight D8 codes mapped to offsets 0..7.  An
argument `k ≥ 129` is outside the array; callers must guard it. -/
def pntrMatches (k : ℕ) : ℕ :=
  if k = 1 then 0
  else if k = 2 then 1
  else if k = 4 then 2
  else if k = 8 then 3
  else if k = 16 then 4
  else if k = 32 then 5
  else if k = 64 then 6
  else if k = 128 then 7
  else 0

/-- Decode of a positive backlink value, `cost_pathway.rs` lines 178-179:
`dir as usize` truncates the double toward zero, `pntr_matches[...]` then
selects into `dx`/`dy`.  Result is the `(Δcol, Δrow)` move; `none` models the
out-of-bounds array access (index ≥ 129), which aborts the program. -/
def decodeDir (dir : ℚ) : Option (ℤ × ℤ) :=
  if (Int.floor dir).toNat ≤ 128 then
    some (dxArr.getD (pntrMatches (Int.floor dir).toNat) 0,
      dyArr.getD (pntrMatches (Int.floor dir).toNat) 0)
  else none

/-- Body of one walk iteration before the move, `cost_pathway.rs` lines
169-173: first visit sets the accumulation cell to `1.0`, later visits
increment it.  The nodata compared against is the backlink's (line 142). -/
def walkBody (back : Grid) (p : ℤ × ℤ) (out : Grid) : Grid :=
  if out.get p.1 p.2 = back.nodata then out.set p.1 p.2 1 else out.increment p.1 p.2 1

/-- The `while !flag` walk of `cost_pathway.rs` lines 168-183, as fuel-indexed
recursion (the source loop is unbounded); the `Bool` records whether the walk
hit the out-of-bounds decode (which aborts the program).  Fuel bounds the
number of moves; exhausted fuel stops the walk early. -/
def sourceWalk (back : Grid) : ℕ → ℤ × ℤ → Grid → Grid × Bool
  | 0, p, out =>
    let out2 := walkBody back p out
    let dir := back.get p.1 p.2
    if dir ≠ back.nodata ∧ 0 < dir then
      match decodeDir dir with
      | none => (out2, true)
      | some _ => (out2, false)
    else (out2, false)
  | fuel + 1, p, out =>
    let out2 := walkBody back p out
    let dir := back.get p.1 p.2
    if dir ≠ back.nodata ∧ 0 < dir then
      match decodeDir dir with
      | none => (out2, true)
      | some d => sourceWalk back fuel (p.1 + d.2, p.2 + d.1) out2
    else (out2, false)

/-- All cells in row-major order, `cost_pathway.rs` lines 162-163. -/
def cellList (rows cols : ℕ) : List (ℤ × ℤ) :=
  (List.range rows).flatMap (fun r => (List.range cols).map (fun c => ((r : ℤ), (c : ℤ))))

/-- Output raster allocated nodata-filled from the destination's
configuration, `cost_pathway.rs` line 144 (spec §3, Grid lifecycle). -/
def initGrid (dest : Grid) : Grid :=
  { rows := dest.rows, cols := dest.cols, nodata := dest.nodata, data := fun _ _ => dest.nodata }

/-- One scan step of the row-major pass, `cost_pathway.rs` line 164: a walk
starts at every cell with positive destination and non-nodata backlink.  A
panic already raised (second component `true`) stops all further work. -/
def accumStep (dest back : Grid) (fuel : ℕ) (acc : Grid × Bool) (p : ℤ × ℤ) : Grid × Bool :=
  if acc.2 then acc
  else if 0 < dest.get p.1 p.2 ∧ back.get p.1 p.2 ≠ back.nodata then
    sourceWalk back fuel p acc.1
  else acc

/-- The full accumulation pass of `cost_pathway.rs` lines 162-194: row-major
scan starting a walk at each qualifying cell.  Returns the output grid and
whether the program aborted on an out-of-bounds decode. -/
def sourceAccumulate (dest back : Grid) (fuel : ℕ) : Grid × Bool :=
  (cellList dest.rows dest.cols).foldl (accumStep dest back fuel) (initGrid dest, false)

/-- The tool body after both rasters are read, `cost_pathway.rs` lines
133-144: the shape check precedes the allocation of the output grid and all
computation. -/
def costPathwayRun (dest back : Grid) (fuel : ℕ) : Except String Grid :=
  if dest.rows ≠ back.rows ∨ dest.cols ≠ back.cols then
    Except.error "The input files must have the same number of rows and columns and spatial extent."
  else Except.ok (sourceAccumulate dest back fuel).1

/-- Position update of a single walk iteration (the pure projection of
`sourceWalk` onto coordinates): `none` when the walk stops at this cell,
either normally (nodata or non-positive direction, lines 180-182) or because
the decode aborts the program. -/
def stepPos (back : Grid) (p : ℤ × ℤ) : Option (ℤ × ℤ) :=
  let dir := back.get p.1 p.2
  if dir ≠ back.nodata ∧ 0 < dir then
    match decodeDir dir with
    | none => none
    | some d => some (p.1 + d.2, p.2 + d.1)
  else none

/-- The walk from `p` reaches a stopping cell using at most `n` moves. -/
def walkEnds (back : Grid) : ℕ → ℤ × ℤ → Bool
  | 0, p => (stepPos back p).isNone
  | n + 1, p =>
    match stepPos back p with
    | none => true
    | some q => walkEnds back n q

/-- Position reached after exactly `n` moves (`none` if the walk stops
earlier). -/
def stepN (back : Grid) : ℕ → ℤ × ℤ → Option (ℤ × ℤ)
  | 0, p => some p
  | n + 1, p =>
    match stepPos back p with
    | none => none
    | some q => stepN back n q

/-- One-move reachability between cells of the backlink grid. -/
def stepRel (back : Grid) (p q : ℤ × ℤ) : Prop := stepPos back p = some q

/-- The backlink grid's direction chains contain no cycle: no cell reaches
itself again in one or more moves. -/
def NoCycle (back : Grid) : Prop :=
  ∀ p : ℤ × ℤ, ¬ Relation.TransGen (stepRel back) p p

/-! Spec-side flow-path accumulator, used for the refinement claim about the
walk semantics.  These definitions follow the words of spec §4.1 (and the
DirectionCode table of spec §3), not the source. -/

/-- DirectionCode table of spec §3, verbatim: each of the eight discrete
codes maps to its `(Δcol, Δrow)` offset; anything else is not a code. -/
def specDecode (dir : ℚ) : Option (ℤ × ℤ) :=
  if dir = 1 then some (1, -1)
  else if dir = 2 then some (1, 0)
  else if dir = 4 then some (1, 1)
  else if dir = 8 then some (0, 1)
  else if dir = 16 then some (-1, 1)
  else if dir = 32 then some (-1, 0)
  else if dir = 64 then some (-1, -1)
  else if dir = 128 then some (0, -1)
  else none

/-- Walk of spec §4.1, steps 1-3: bump the accumulation cell, stop on nodata
or non-positive direction, otherwise move by the DirectionCode offset and
repeat; fuel-indexed like `sourceWalk`. -/
def specWalk (back : Grid) : ℕ → ℤ × ℤ → Grid → Grid
  | 0, p, out => walkBody back p out
  | fuel + 1, p, out =>
    let out2 := walkBody back p out
    let dir := back.get p.1 p.2
    if dir = back.nodata ∨ dir ≤ 0 then out2
    else
      match specDecode dir with
      | none => out2
      | some d => specWalk back fuel (p.1 + d.2, p.2 + d.1) out2

/-- Spec §4.1 scan step: start a walk at every cell whose destination value
is positive and whose backlink value is not nodata. -/
def specAccumStep (dest back : Grid) (fuel : ℕ) (out : Grid) (p : ℤ × ℤ) : Grid :=
  if 0 < dest.get p.1 p.2 ∧ back.get p.1 p.2 ≠ back.nodata then specWalk back fuel p out
  else out

/-- Spec §4.1 accumulator: single row-major pass over all cells. -/
def specAccumulate (dest back : Grid) (fuel : ℕ) : Grid :=
  (cellList dest.rows dest.cols).foldl (specAccumStep dest back fuel) (initGrid dest)

/-! Parallel IDW interpolator (`lidar_idw_interpolation.rs`, `run`). -/

/-- Inner loop over the points returned by the fixed-radius query,
`lidar_idw_interpolation.rs` lines 576-590.  `pw` stands for the external
`f64::powf` applied at the configured exponent (`dist.powf(weight)`); `attr`
is the `interp_vals` array.  Accumulates `(val, sum_weights)`; the third
component records an early exit through the `dist ≤ 0` branch, which assigns
the point's attribute and zeroes `sum_weights`. -/
def idwScan (pw : ℚ → ℚ) (attr : ℕ → ℚ) : List (ℕ × ℚ) → ℚ → ℚ → ℚ × ℚ × Option ℚ
  | [], val, sw => (val, sw, none)
  | e :: rest, val, sw =>
    if 0 < e.2 then idwScan pw attr rest (val + attr e.1 / pw e.2) (sw + 1 / pw e.2)
    else (val, 0, some (attr e.1))

/-- Value assigned to one output cell given the query result `ret`,
`lidar_idw_interpolation.rs` lines 570-594: the cell starts at nodata, an
empty query leaves it there, an early exit keeps the assigned attribute
(since `sum_weights` was zeroed), and otherwise the weighted mean is written
whenever `sum_weights > 0`. -/
def idwCell (pw : ℚ → ℚ) (attr : ℕ → ℚ) (nodata : ℚ) (ret : List (ℕ × ℚ)) : ℚ :=
  if 0 < ret.length then
    match idwScan pw attr ret 0 0 with
    | (_, _, some z) => z
    | (val, sw, none) => if 0 < sw then val / sw else nodata
  else nodata

/-- The x coordinate at which a worker queries the spatial index for cell
column `col`, `lidar_idw_interpolation.rs` line 572. -/
def queryX (west res : ℚ) (col : ℤ) : ℚ := west + (col : ℚ) * res + 0.5

/-- The y coordinate at which a worker queries the spatial index for cell
row `row`, `lidar_idw_interpolation.rs` line 573. -/
def queryY (north res : ℚ) (row : ℤ) : ℚ := north - (row : ℚ) * res - 0.5

/-- LiDAR point record, spec §3 "Point": position, attributes, classification,
return-order flags and the withheld flag (the `lidar` crate's `PointData` is
an external collaborator; doubles are embedded as `ℚ`). -/
structure PointData where
  x : ℚ
  y : ℚ
  z : ℚ
  intensity : ℕ
  classification : ℕ
  scan_angle : ℤ
  user_data : ℕ
  withheld : Bool
  early : Bool
  late : Bool

/-- Return-type filter selected by the `--returns` flag. -/
inductive ReturnMode
  | all
  | last
  | first
deriving DecidableEq

/-- The `(all_returns, late_returns, early_returns)` triple of
`lidar_idw_interpolation.rs` lines 315-329 ("last" checked first, then
"first", anything else meaning all returns). -/
def returnFlags : ReturnMode → Bool × Bool × Bool
  | ReturnMode.last => (false, true, false)
  | ReturnMode.first => (false, false, true)
  | ReturnMode.all => (true, false, false)

/-- The scalar pushed onto `interp_vals` for one point, following the
`match &interp_parameter` of `lidar_idw_interpolation.rs` lines 401-518.
The fourth arm is literally the string "classs" in the source, so the
advertised selector "class" falls through to the wildcard (user data) arm. -/
def attrValue (sel : String) (p : PointData) : ℚ :=
  if sel = "elevation" ∨ sel = "z" then p.z
  else if sel = "intensity" then (p.intensity : ℚ)
  else if sel = "scan angle" then (p.scan_angle : ℚ)
  else if sel = "classs" then (p.classification : ℚ)
  else (p.user_data : ℚ)

/-- The nested inclusion test of `lidar_idw_interpolation.rs` lines 405-411
(identical in all five binning loops): not withheld, return kind admitted by
the flags, classification not excluded, and z within bounds. -/
def insertCond (mode : ReturnMode) (includeCls : ℕ → Bool) (minZ maxZ : ℚ) (p : PointData) : Bool :=
  if !p.withheld then
    if (returnFlags mode).1 || (p.late && (returnFlags mode).2.1)
        || (p.early && (returnFlags mode).2.2) then
      if includeCls p.classification then
        if minZ ≤ p.z ∧ p.z ≤ maxZ then true else false
      else false
    else false
  else false

/-- Binning pass over the points starting at ordinal `i`: returns the list of
ordinals inserted into the spatial index and the `interp_vals` attribute
array (one entry per point, pushed unconditionally), as in
`lidar_idw_interpolation.rs` lines 401-518. -/
def binAux (sel : String) (mode : ReturnMode) (includeCls : ℕ → Bool) (minZ maxZ : ℚ) :
    ℕ → List PointData → List ℕ × List ℚ
  | _, [] => ([], [])
  | i, p :: rest =>
    let r := binAux sel mode includeCls minZ maxZ (i + 1) rest
    (if insertCond mode includeCls minZ maxZ p then i :: r.1 else r.1,
     attrValue sel p :: r.2)

/-- Phase-1 binning of the whole point source (ordinals start at 0). -/
def binPoints (sel : String) (mode : ReturnMode) (includeCls : ℕ → Bool) (minZ maxZ : ℚ)
    (pts : List PointData) : List ℕ × List ℚ :=
  binAux sel mode includeCls minZ maxZ 0 pts

/-- The row-partition loop of `lidar_idw_interpolation.rs` lines 547-560 as
fuel-indexed recursion: starting from `id` and `endingRow`, emit one
`(starting_row, ending_row)` block per iteration while `ending_row < rows`,
with `starting_row = id * bs`, `ending_row = starting_row + bs` clamped to
`rows`.  `none` means the loop had not terminated when the fuel ran out. -/
def partitionLoop (rows bs : ℕ) : ℕ → ℕ → ℕ → Option (List (ℕ × ℕ))
  | 0, _, _ => none
  | fuel + 1, id, endingRow =>
    if endingRow < rows then
      let s := id * bs
      let e := if s + bs > rows then rows else s + bs
      match partitionLoop rows bs fuel (id + 1) e with
      | none => none
      | some l => some ((s, e) :: l)
    else some []

/-- Row partition for `rows` rows and `w` workers: block size is the integer
division `rows / w` (`lidar_idw_interpolation.rs` line 547), loop starts with
`id = 0`, `ending_row = 0`. -/
def partitionBlocks (rows w fuel : ℕ) : Option (List (ℕ × ℕ)) :=
  partitionLoop rows (rows / w) fuel 0 0

/-! Concrete instances used in witnesses and counterexamples. -/

/-- Destination grid (1×3), positive at column 2 only. -/
def destC8 : Grid :=
  { rows := 1, cols := 3, nodata := -32768, data := fun _ x => if x = 2 then 1 else 0 }

/-- Destination grid (1×3), positive at column 0 only. -/
def destC8fix : Grid :=
  { rows := 1, cols := 3, nodata := -32768, data := fun _ x => if x = 0 then 1 else 0 }

/-- Backlink grid (1×3) `[E, E, terminal]` (E is code 2, terminal is 0). -/
def backC8 : Grid :=
  { rows := 1, cols := 3, nodata := -32768, data := fun _ x => if x = 2 then 0 else 2 }

/-- Destination grid (1×1) holding 1. -/
def destUnit : Grid := { rows := 1, cols := 1, nodata := -32768, data := fun _ _ => 1 }

/-- Backlink grid (1×1) holding direction code 2 (east). -/
def backCode : Grid := { rows := 1, cols := 1, nodata := -32768, data := fun _ _ => 2 }

/-- Backlink grid (1×1) holding 0: every cell is terminal. -/
def backZero : Grid := { rows := 1, cols := 1, nodata := -32768, data := fun _ _ => 0 }

/-- Backlink grid (1×1) holding 200, a positive value above 128. -/
def backBig : Grid := { rows := 1, cols := 1, nodata := -32768, data := fun _ _ => 200 }

/-- Sample LiDAR point: classification 5, user data 7, not withheld. -/
def ptA : PointData :=
  { x := 0, y := 0, z := 1, intensity := 11, classification := 5, scan_angle := 3,
    user_data := 7, withheld := false, early := true, late := true }

/-- The eight D8 direction codes of spec §3, as backlink cell values. -/
def dirCodes : List ℚ := [1, 2, 4, 8, 16, 32, 64, 128]

/-! Claim theorems. -/

/-- C5: when the destination and backlink grids disagree on rows or columns,
the flow-path tool fails with the input-validation error; the error is
returned before the output grid is allocated and before any computation
(structurally, the error branch of `costPathwayRun` precedes both). -/
theorem C5_shape_mismatch_error (dest back : Grid) (fuel : ℕ)
    (h : dest.rows ≠ back.rows ∨ dest.cols ≠ back.cols) :
    costPathwayRun dest back fuel =
      Except.error
        "The input files must have the same number of rows and columns and spatial extent." := by
  unfold costPathwayRun
  rw [if_pos h]

/-- Witness for C5, at a 1×3 destination and a 1×1 backlink grid. -/
theorem C5_shape_mismatch_error_witness :
    costPathwayRun destC8 backCode 0 =
      Except.error
        "The input files must have the same number of rows and columns and spatial extent." :=
  C5_shape_mismatch_error destC8 backCode 0 (Or.inr (by decide))

/-- C7 counterexample: with `west = 0`, resolution `2` and column `0`, the
worker queries x-coordinate `1/2`, not the cell center `west + 0*res + res/2
= 1` the claim specifies. -/
theorem C7_counterexample :
    queryX 0 2 0 = 1 / 2 ∧ (1 / 2 : ℚ) ≠ (0 : ℚ) + ((0 : ℤ) : ℚ) * 2 + 2 / 2 := by
  constructor
  · unfold queryX
    norm_num
  · norm_num

/-- C7 amended: the worker queries at `x = west + col*res + 0.5`,
`y = north - row*res - 0.5` (the literal offset 0.5 of the source); this
coincides with the claimed cell center (`res/2` offsets) exactly when the
resolution is 1. -/
theorem C7_query_offset (west north res : ℚ) (row col : ℤ) :
    (queryX west res col = west + (col : ℚ) * res + res / 2 ∧
      queryY north res row = north - (row : ℚ) * res - res / 2) ↔ res = 1 := by
  unfold queryX queryY
  constructor
  · rintro ⟨h1, -⟩
    nlinarith [h1]
  · rintro rfl
    norm_num

/-- C4: the row-partition loop does not terminate when `rows < workers`
(block size `rows / W = 0` never advances `ending_row`), so for rows = 1 and
3 workers no block list is ever produced — contradicting the claimed
property for `rows ∈ {1,7,100}`, `W ∈ {1,3,8}`.  For comparison, the
terminating case rows = 7, W = 3 does cover `0..7` with no gap or overlap. -/
theorem C4_partition_hangs :
    (∀ fuel : ℕ, partitionBlocks 1 3 fuel = none) ∧
      partitionBlocks 7 3 10 = some [(0, 2), (2, 4), (4, 6), (6, 7)] := by
  constructor
  · have h : ∀ (fuel id : ℕ), partitionLoop 1 0 fuel id 0 = none := by
      intro fuel
      induction fuel with
      | zero => intro id; rfl
      | succ n ih =>
        intro id
        show partitionLoop 1 0 (n + 1) id 0 = none
        unfold partitionLoop
        simp [ih (id + 1)]
    intro fuel
    show partitionLoop 1 (1 / 3) fuel 0 0 = none
    exact h fuel 0
  · decide

/-- C6: the attribute-selector match arm for classification is literally
"classs" in the source, so the advertised selector "class" falls through to
the wildcard (user data) arm: binning the single point `ptA`
(classification 5, user data 7) under selector "class" records `7`, not the
classification code `5`. -/
theorem C6_class_selector_slip :
    (binPoints "class" ReturnMode.all (fun _ => true) 0 10 [ptA]).2 = [7] ∧
      (ptA.classification : ℚ) = 5 ∧ ((7 : ℚ) ≠ 5) := by
  refine ⟨?_, by norm_num [ptA], by norm_num⟩
  decide

/-- C8 counterexample: on the 1×3 instance with the destination positive at
column 2 only (as the claim states) and backlink `[E, E, terminal]`, the
accumulator starts its only walk at column 2, so the result is
`[nodata, nodata, 1]`, not `[1, 1, 1]`. -/
theorem C8_counterexample :
    ¬ ((sourceAccumulate destC8 backC8 3).1.get 0 0 = 1 ∧
        (sourceAccumulate destC8 backC8 3).1.get 0 1 = 1 ∧
        (sourceAccumulate destC8 backC8 3).1.get 0 2 = 1) := by decide

/-- C8 amended: with the destination positive at column 0 (where the claimed
walk starts), the walk visits columns 0, 1, 2 in order (successive positions
`(0,0) → (0,1) → (0,2)`, then stop) and the accumulation grid is
`[1, 1, 1]`. -/
theorem C8_straight_chain :
    (sourceAccumulate destC8fix backC8 3).1.get 0 0 = 1 ∧
      (sourceAccumulate destC8fix backC8 3).1.get 0 1 = 1 ∧
      (sourceAccumulate destC8fix backC8 3).1.get 0 2 = 1 ∧
      stepPos backC8 (0, 0) = some (0, 1) ∧
      stepPos backC8 (0, 1) = some (0, 2) ∧
      stepPos backC8 (0, 2) = none := by decide

/-- C10 counterexample: the backlink value `5/2` is positive, at most 128 and
not one of the eight direction codes, yet it decodes to the east offset
`(+1, 0)` (its truncation 2 hits the code-2 table entry), not to the claimed
north-east default `(+1, -1)`. -/
theorem C10_counterexample :
    0 < (5 / 2 : ℚ) ∧ (5 / 2 : ℚ) ≤ 128 ∧ (5 / 2 : ℚ) ∉ dirCodes ∧
      decodeDir (5 / 2) = some (1, 0) ∧ (((1 : ℤ), (0 : ℤ))) ≠ ((1 : ℤ), (-1 : ℤ)) := by
  have key : (5 / 2 : ℚ) = Rat.divInt 5 2 := by rw [Rat.divInt_eq_div]; norm_num
  rw [key]
  decide

/-- C10 amended: a positive backlink value at most 128 whose truncation to
integer is not one of the eight direction codes is silently decoded as the
NE offset `(+1, -1)` (table entries default to 0); and the out-of-bounds
decode (the program-aborting branch) is reachable: a 1×1 backlink grid
holding 200 at the visited cell aborts the accumulator. -/
theorem C10_decode_default_and_overflow (q : ℚ) (h0 : 0 < q) (h128 : q ≤ 128)
    (hnc : (Int.floor q).toNat ∉ ([1, 2, 4, 8, 16, 32, 64, 128] : List ℕ)) :
    decodeDir q = some (1, -1) ∧ (sourceAccumulate destUnit backBig 1).2 = true := by
  constructor
  · have hfl : Int.floor q ≤ Int.floor (128 : ℚ) := Int.floor_le_floor h128
    have hfl128 : Int.floor (128 : ℚ) = 128 := by
      rw [show (128 : ℚ) = ((128 : ℤ) : ℚ) by norm_num]
      exact Int.floor_intCast 128
    have hk : (Int.floor q).toNat ≤ 128 := by omega
    have hz : pntrMatches (Int.floor q).toNat = 0 := by
      simp only [List.mem_cons, List.not_mem_nil, or_false, not_or] at hnc
      obtain ⟨e1, e2, e4, e8, e16, e32, e64, e128⟩ := hnc
      unfold pntrMatches
      simp [e1, e2, e4, e8, e16, e32, e64, e128]
    unfold decodeDir
    rw [if_pos hk, hz]
    rfl
  · decide

/-- Witness for the C10 amended theorem at the non-code value 3. -/
theorem C10_decode_default_and_overflow_witness :
    decodeDir 3 = some (1, -1) ∧ (sourceAccumulate destUnit backBig 1).2 = true :=
  C10_decode_default_and_overflow 3 (by decide) (by decide) (by decide)

/-- When every returned distance is positive, the scan loop runs to the end
and accumulates the two sums on top of the incoming accumulators. -/
lemma idwScan_all_pos (pw : ℚ → ℚ) (attr : ℕ → ℚ) :
    ∀ (ret : List (ℕ × ℚ)), (∀ e ∈ ret, (0 : ℚ) < e.2) → ∀ v s,
      idwScan pw attr ret v s =
        (v + (ret.map (fun e => attr e.1 / pw e.2)).sum,
          s + (ret.map (fun e => 1 / pw e.2)).sum, none) := by
  intro ret
  induction ret with
  | nil => intro _ v s; simp [idwScan]
  | cons e rest ih =>
    intro h v s
    have he : (0 : ℚ) < e.2 := h e (List.mem_cons_self e rest)
    have hrest : ∀ x ∈ rest, (0 : ℚ) < x.2 := fun x hx => h x (List.mem_cons_of_mem e hx)
    simp only [idwScan, if_pos he, ih hrest, List.map_cons, List.sum_cons, Prod.mk.injEq]
    refine ⟨by ring, by ring, trivial⟩

/-- When distances are nonnegative and some returned distance is zero, the
scan exits early through the `dist ≤ 0` branch, returning that point's
attribute with a zeroed weight sum. -/
lemma idwScan_has_zero (pw : ℚ → ℚ) (attr : ℕ → ℚ) :
    ∀ (ret : List (ℕ × ℚ)), (∀ e ∈ ret, (0 : ℚ) ≤ e.2) → (∃ e ∈ ret, e.2 = 0) → ∀ v s,
      ∃ i v2, ((i, (0 : ℚ)) ∈ ret ∧ idwScan pw attr ret v s = (v2, 0, some (attr i))) := by
  intro ret
  induction ret with
  | nil => intro _ hz; exact absurd hz (by simp)
  | cons e rest ih =>
    intro hnn hz v s
    by_cases he : (0 : ℚ) < e.2
    · have hz2 : ∃ x ∈ rest, x.2 = 0 := by
        obtain ⟨x, hx, hx0⟩ := hz
        rcases List.mem_cons.mp hx with rfl | hxr
        · exact absurd hx0 (by exact ne_of_gt he)
        · exact ⟨x, hxr, hx0⟩
      have hnn2 : ∀ x ∈ rest, (0 : ℚ) ≤ x.2 := fun x hx => hnn x (List.mem_cons_of_mem e hx)
      obtain ⟨i, v2, hmem, heq⟩ := ih hnn2 hz2 (v + attr e.1 / pw e.2) (s + 1 / pw e.2)
      exact ⟨i, v2, List.mem_cons_of_mem e hmem, by simp only [idwScan, if_pos he]; exact heq⟩
    · have he0 : e.2 = 0 := le_antisymm (not_lt.mp he) (hnn e (List.mem_cons_self e rest))
      refine ⟨e.1, v, ?_, ?_⟩
      · have : ((e.1, (0 : ℚ)) : ℕ × ℚ) = e := by
          rw [← he0]
        rw [this]
        exact List.mem_cons_self e rest
      · simp only [idwScan, if_neg he]

/-- C1: the per-cell IDW computation of the worker loop: an empty query
leaves the cell at nodata; a returned distance of exactly zero assigns that
point's attribute directly, bypassing weighting; otherwise the cell gets
`Σ(attr i / pw dist i) / Σ(1 / pw dist i)` over all returned points, where
`pw` is the power function at the configured exponent.  Hypotheses:
`pw` sends positive distances to positive weights (true of `powf` for
positive bases) and the query returns nonnegative distances. -/
theorem C1_idw_cell (pw : ℚ → ℚ) (attr : ℕ → ℚ) (nodata : ℚ) (ret : List (ℕ × ℚ))
    (hpw : ∀ d : ℚ, 0 < d → 0 < pw d) (hd : ∀ e ∈ ret, (0 : ℚ) ≤ e.2) :
    (ret = [] → idwCell pw attr nodata ret = nodata) ∧
      ((∃ e ∈ ret, e.2 = 0) →
        ∃ i, ((i, (0 : ℚ)) ∈ ret ∧ idwCell pw attr nodata ret = attr i)) ∧
      ((∀ e ∈ ret, (0 : ℚ) < e.2) → ret ≠ [] →
        idwCell pw attr nodata ret =
          (ret.map (fun e => attr e.1 / pw e.2)).sum /
            (ret.map (fun e => 1 / pw e.2)).sum) := by
  refine ⟨?_, ?_, ?_⟩
  · rintro rfl
    rfl
  · intro hz
    obtain ⟨i, v2, hmem, heq⟩ := idwScan_has_zero pw attr ret hd hz 0 0
    have hlen : 0 < ret.length := by
      cases ret with
      | nil => cases hmem
      | cons a l => simp
    refine ⟨i, hmem, ?_⟩
    unfold idwCell
    rw [if_pos hlen, heq]
  · intro hpos hne
    have hlen : 0 < ret.length := List.length_pos.mpr hne
    unfold idwCell
    rw [if_pos hlen, idwScan_all_pos pw attr ret hpos 0 0]
    have hsw : 0 < ((ret.map (fun e => 1 / pw e.2)).sum) := by
      apply List.sum_pos
      · intro x hx
        obtain ⟨e, he, rfl⟩ := List.mem_map.mp hx
        have hp := hpw e.2 (hpos e he)
        positivity
      · simpa using hne
    simp only [zero_add]
    rw [if_pos hsw]

/-- Witness for C1 at the identity power function (exponent 1), constant
attribute 3, and returned distances 1 and 2. -/
theorem C1_idw_cell_witness :
    (([((0 : ℕ), (1 : ℚ)), (1, 2)] : List (ℕ × ℚ)) = [] →
        idwCell (fun d => d) (fun _ => 3) (-1) [(0, 1), (1, 2)] = -1) ∧
      ((∃ e ∈ ([((0 : ℕ), (1 : ℚ)), (1, 2)] : List (ℕ × ℚ)), e.2 = 0) →
        ∃ i, ((i, (0 : ℚ)) ∈ ([((0 : ℕ), (1 : ℚ)), (1, 2)] : List (ℕ × ℚ)) ∧
          idwCell (fun d => d) (fun _ => 3) (-1) [(0, 1), (1, 2)] = 3)) ∧
      ((∀ e ∈ ([((0 : ℕ), (1 : ℚ)), (1, 2)] : List (ℕ × ℚ)), (0 : ℚ) < e.2) →
        ([((0 : ℕ), (1 : ℚ)), (1, 2)] : List (ℕ × ℚ)) ≠ [] →
        idwCell (fun d => d) (fun _ => 3) (-1) [(0, 1), (1, 2)] =
          (([((0 : ℕ), (1 : ℚ)), (1, 2)] : List (ℕ × ℚ)).map (fun e => 3 / e.2)).sum /
            (([((0 : ℕ), (1 : ℚ)), (1, 2)] : List (ℕ × ℚ)).map (fun e => 1 / e.2)).sum) :=
  C1_idw_cell (fun d => d) (fun _ => 3) (-1) [(0, 1), (1, 2)] (fun _ h => h) (by decide)

/-- The inclusion test of the binning loops, spelled as the spec's
conjunction: not withheld, the configured return mode admits the point's
return kind, the classification is not excluded, and z is within bounds. -/
lemma insertCond_iff (mode : ReturnMode) (includeCls : ℕ → Bool) (minZ maxZ : ℚ)
    (p : PointData) :
    insertCond mode includeCls minZ maxZ p = true ↔
      (p.withheld = false ∧
        (mode = ReturnMode.all ∨ (mode = ReturnMode.last ∧ p.late = true) ∨
          (mode = ReturnMode.first ∧ p.early = true)) ∧
        includeCls p.classification = true ∧
        (minZ ≤ p.z ∧ p.z ≤ maxZ)) := by
  cases mode <;>
    simp only [insertCond, returnFlags] <;>
    split_ifs <;> simp_all

/-- Membership in the inserted-ordinal list produced by the binning pass
starting at ordinal `start`. -/
lemma binAux_fst_mem (sel : String) (mode : ReturnMode) (includeCls : ℕ → Bool)
    (minZ maxZ : ℚ) :
    ∀ (pts : List PointData) (start i : ℕ),
      i ∈ (binAux sel mode includeCls minZ maxZ start pts).1 ↔
        ∃ j, ∃ h : j < pts.length, start + j = i ∧
          insertCond mode includeCls minZ maxZ (pts.get ⟨j, h⟩) = true := by
  intro pts
  induction pts with
  | nil => intro start i; simp [binAux]
  | cons p rest ih =>
    intro start i
    constructor
    · intro hmem
      simp only [binAux] at hmem
      by_cases hp : insertCond mode includeCls minZ maxZ p = true
      · rw [if_pos hp] at hmem
        rcases List.mem_cons.mp hmem with h1 | h2
        · exact ⟨0, by simp, by omega, by simpa using hp⟩
        · obtain ⟨j, hj, hsum, hins⟩ := (ih (start + 1) i).mp h2
          refine ⟨j + 1, by simpa using Nat.succ_lt_succ hj, by omega, ?_⟩
          simpa using hins
      · rw [if_neg hp] at hmem
        obtain ⟨j, hj, hsum, hins⟩ := (ih (start + 1) i).mp hmem
        refine ⟨j + 1, by simpa using Nat.succ_lt_succ hj, by omega, ?_⟩
        simpa using hins
    · rintro ⟨j, hj, hsum, hins⟩
      simp only [binAux]
      cases j with
      | zero =>
        have hp : insertCond mode includeCls minZ maxZ p = true := by simpa using hins
        rw [if_pos hp]
        have : i = start := by omega
        subst this
        exact List.mem_cons_self _ _
      | succ j =>
        have hmem : i ∈ (binAux sel mode includeCls minZ maxZ (start + 1) rest).1 := by
          refine (ih (start + 1) i).mpr ⟨j, by simpa using hj, by omega, ?_⟩
          simpa using hins
        by_cases hp : insertCond mode includeCls minZ maxZ p = true
        · rw [if_pos hp]
          exact List.mem_cons_of_mem _ hmem
        · rw [if_neg hp]
          exact hmem

/-- C3: a point is inserted into the spatial index iff it is not withheld,
its return kind matches the configured return mode (`all` accepts every
return, `last` requires a late return, `first` requires an early return),
its classification is not excluded, and its z lies within
`[minZ, maxZ]`. -/
theorem C3_filter_predicate (sel : String) (mode : ReturnMode) (includeCls : ℕ → Bool)
    (minZ maxZ : ℚ) (pts : List PointData) (i : ℕ) (h : i < pts.length) :
    i ∈ (binPoints sel mode includeCls minZ maxZ pts).1 ↔
      ((pts.get ⟨i, h⟩).withheld = false ∧
        (mode = ReturnMode.all ∨ (mode = ReturnMode.last ∧ (pts.get ⟨i, h⟩).late = true) ∨
          (mode = ReturnMode.first ∧ (pts.get ⟨i, h⟩).early = true)) ∧
        includeCls (pts.get ⟨i, h⟩).classification = true ∧
        (minZ ≤ (pts.get ⟨i, h⟩).z ∧ (pts.get ⟨i, h⟩).z ≤ maxZ)) := by
  unfold binPoints
  rw [binAux_fst_mem sel mode includeCls minZ maxZ pts 0 i,
    ← insertCond_iff mode includeCls minZ maxZ (pts.get ⟨i, h⟩)]
  constructor
  · rintro ⟨j, hj, hsum, hins⟩
    have hji : j = i := by omega
    subst hji
    exact hins
  · intro hins
    exact ⟨i, h, by omega, hins⟩

/-- Witness for C3: ordinal 0 of a one-point source under mode `all`. -/
theorem C3_filter_predicate_witness :
    0 ∈ (binPoints "elevation" ReturnMode.all (fun _ => true) 0 10 [ptA]).1 ↔
      (ptA.withheld = false ∧
        (ReturnMode.all = ReturnMode.all ∨
          (ReturnMode.all = ReturnMode.last ∧ ptA.late = true) ∨
          (ReturnMode.all = ReturnMode.first ∧ ptA.early = true)) ∧
        (fun _ => true) ptA.classification = true ∧
        ((0 : ℚ) ≤ ptA.z ∧ ptA.z ≤ 10)) :=
  C3_filter_predicate "elevation" ReturnMode.all (fun _ => true) 0 10 [ptA] 0 (by decide)

/-- On the eight direction codes the source's truncate-and-lookup decode
agrees with the spec's DirectionCode table. -/
lemma decodeDir_eq_specDecode (q : ℚ) (hq : q ∈ dirCodes) : decodeDir q = specDecode q := by
  fin_cases hq <;> decide

/-- The spec's DirectionCode table is defined on every direction code. -/
lemma specDecode_isSome_of_mem (q : ℚ) (hq : q ∈ dirCodes) : specDecode q ≠ none := by
  fin_cases hq <;> decide

/-- When every positive non-nodata backlink value is a direction code, the
source walk computes exactly the spec walk and never aborts. -/
lemma sourceWalk_eq_specWalk (back : Grid)
    (hcodes : ∀ y x : ℤ, back.get y x ≠ back.nodata → 0 < back.get y x →
      back.get y x ∈ dirCodes) :
    ∀ (fuel : ℕ) (p : ℤ × ℤ) (out : Grid),
      sourceWalk back fuel p out = (specWalk back fuel p out, false) := by
  intro fuel
  induction fuel with
  | zero =>
    intro p out
    simp only [sourceWalk, specWalk]
    by_cases hdir : back.get p.1 p.2 ≠ back.nodata ∧ 0 < back.get p.1 p.2
    · rw [if_pos hdir, decodeDir_eq_specDecode _ (hcodes p.1 p.2 hdir.1 hdir.2)]
      cases hs : specDecode (back.get p.1 p.2) with
      | none => exact absurd hs (specDecode_isSome_of_mem _ (hcodes p.1 p.2 hdir.1 hdir.2))
      | some d => rfl
    · rw [if_neg hdir]
  | succ n ih =>
    intro p out
    simp only [sourceWalk, specWalk]
    by_cases hdir : back.get p.1 p.2 ≠ back.nodata ∧ 0 < back.get p.1 p.2
    · have hnot : ¬ (back.get p.1 p.2 = back.nodata ∨ back.get p.1 p.2 ≤ 0) := by
        push_neg
        exact ⟨hdir.1, hdir.2⟩
      rw [if_pos hdir, if_neg hnot, decodeDir_eq_specDecode _ (hcodes p.1 p.2 hdir.1 hdir.2)]
      cases hs : specDecode (back.get p.1 p.2) with
      | none => exact absurd hs (specDecode_isSome_of_mem _ (hcodes p.1 p.2 hdir.1 hdir.2))
      | some d => exact ih (p.1 + d.2, p.2 + d.1) (walkBody back p out)
    · have hor : back.get p.1 p.2 = back.nodata ∨ back.get p.1 p.2 ≤ 0 := by
        rcases not_and_or.mp hdir with h | h
        · exact Or.inl (not_not.mp h)
        · exact Or.inr (not_lt.mp h)
      rw [if_neg hdir, if_pos hor]

/-- The full scan agrees cell by cell as long as no walk aborts. -/
lemma foldl_accum_eq_spec (dest back : Grid) (fuel : ℕ)
    (hcodes : ∀ y x : ℤ, back.get y x ≠ back.nodata → 0 < back.get y x →
      back.get y x ∈ dirCodes) :
    ∀ (l : List (ℤ × ℤ)) (out : Grid),
      l.foldl (accumStep dest back fuel) (out, false) =
        (l.foldl (specAccumStep dest back fuel) out, false) := by
  intro l
  induction l with
  | nil => intro out; rfl
  | cons p rest ih =>
    intro out
    simp only [List.foldl_cons]
    have hstep : accumStep dest back fuel (out, false) p =
        (specAccumStep dest back fuel out p, false) := by
      unfold accumStep specAccumStep
      by_cases hc : 0 < dest.get p.1 p.2 ∧ back.get p.1 p.2 ≠ back.nodata
      · simp only [Bool.false_eq_true, if_false, if_pos hc]
        exact sourceWalk_eq_specWalk back hcodes fuel p out
      · simp only [Bool.false_eq_true, if_false, if_neg hc]
    rw [hstep, ih]

/-- C2: for equally-shaped destination and backlink grids whose positive
non-nodata backlink values are DirectionCodes (the data model of spec §3),
the source accumulator scans all cells in row-major order and performs
exactly the walks the claim describes: bump the accumulation cell, stop on
nodata or non-positive backlink, otherwise move by the DirectionCode table
offset — i.e. it coincides with the accumulator written from the claim's
words (`specAccumulate`, built on `specDecode`), and never aborts. -/
theorem C2_walk_refines_spec (dest back : Grid) (fuel : ℕ)
    (hshape : dest.rows = back.rows ∧ dest.cols = back.cols)
    (hcodes : ∀ y x : ℤ, back.get y x ≠ back.nodata → 0 < back.get y x →
      back.get y x ∈ dirCodes) :
    sourceAccumulate dest back fuel = (specAccumulate dest back fuel, false) := by
  unfold sourceAccumulate specAccumulate
  exact foldl_accum_eq_spec dest back fuel hcodes _ _

/-- Witness for C2 on a 1×1 pair of grids whose backlink value is code 2. -/
theorem C2_walk_refines_spec_witness :
    sourceAccumulate destUnit backCode 2 = (specAccumulate destUnit backCode 2, false) :=
  C2_walk_refines_spec destUnit backCode 2 ⟨rfl, rfl⟩ (by
    intro y x h1 h2
    by_cases hb : backCode.inBounds y x
    · simp only [Grid.get, if_pos hb]
      show (2 : ℚ) ∈ dirCodes
      decide
    · rw [Grid.get, if_neg hb] at h1
      exact absurd rfl h1)

/-- Reading outside the grid yields the nodata sentinel. -/
lemma get_eq_nodata_of_not_inBounds (g : Grid) (y x : ℤ) (h : ¬ g.inBounds y x) :
    g.get y x = g.nodata := by
  simp [Grid.get, h]

/-- A cell with an outgoing move lies inside the grid (an out-of-bounds read
is nodata, which stops the walk). -/
lemma stepPos_some_inBounds (back : Grid) (p q : ℤ × ℤ) (h : stepPos back p = some q) :
    back.inBounds p.1 p.2 := by
  by_contra hb
  simp only [stepPos] at h
  rw [get_eq_nodata_of_not_inBounds back p.1 p.2 hb] at h
  simp at h

/-- One iterated move is one move. -/
lemma stepN_one (back : Grid) (p : ℤ × ℤ) : stepN back 1 p = stepPos back p := by
  cases h : stepPos back p <;> simp [stepN, h]

/-- Iterated moves compose. -/
lemma stepN_add (back : Grid) (m n : ℕ) :
    ∀ p : ℤ × ℤ, stepN back (m + n) p = (stepN back m p).bind (stepN back n) := by
  induction m with
  | zero => intro p; simp [stepN]
  | succ k ih =>
    intro p
    have hadd : k + 1 + n = (k + n) + 1 := by omega
    rw [hadd]
    show stepN back ((k + n) + 1) p = _
    cases h : stepPos back p with
    | none => simp [stepN, h]
    | some q => simp [stepN, h, ih q]

/-- A completed sequence of `k + 1` moves witnesses transitive
reachability. -/
lemma stepN_transGen (back : Grid) :
    ∀ (k : ℕ) (p q : ℤ × ℤ), stepN back (k + 1) p = some q →
      Relation.TransGen (stepRel back) p q := by
  intro k
  induction k with
  | zero =>
    intro p q h
    rw [Nat.zero_add, stepN_one] at h
    exact Relation.TransGen.single h
  | succ k ih =>
    intro p q h
    simp only [stepN] at h
    cases hs : stepPos back p with
    | none => rw [hs] at h; simp at h
    | some r =>
      rw [hs] at h
      exact Relation.TransGen.head hs (ih r q h)

/-- A walk that has not stopped within `n` moves is still going after `n + 1`
iterated moves. -/
lemma walkEnds_false_stepN (back : Grid) :
    ∀ (n : ℕ) (p : ℤ × ℤ), walkEnds back n p = false → stepN back (n + 1) p ≠ none := by
  intro n
  induction n with
  | zero =>
    intro p h
    simp only [walkEnds, Option.isNone] at h
    cases hs : stepPos back p with
    | none => rw [hs] at h; simp at h
    | some q =>
      rw [Nat.zero_add, stepN_one, hs]
      simp
  | succ n ih =>
    intro p h
    simp only [walkEnds] at h
    cases hs : stepPos back p with
    | none => rw [hs] at h; simp at h
    | some q =>
      rw [hs] at h
      have hq := ih q h
      simp only [stepN, hs]
      exact hq

/-- C9: over a backlink grid whose direction chains contain no cycle, every
walk — in particular every walk started by the accumulator — stops within
`rows * cols` moves: along an unfinished walk all positions are in-bounds
and pairwise distinct, and only `rows * cols` cells exist. -/
theorem C9_acyclic_walks_terminate (back : Grid) (p : ℤ × ℤ) (hnc : NoCycle back) :
    walkEnds back (back.rows * back.cols) p = true := by
  by_contra hfalse
  rw [Bool.not_eq_true] at hfalse
  have hstep := walkEnds_false_stepN back (back.rows * back.cols) p hfalse
  obtain ⟨f, hsome⟩ :
      ∃ f : ℕ → ℤ × ℤ, ∀ i, i ≤ back.rows * back.cols + 1 → stepN back i p = some (f i) := by
    refine ⟨fun i => (stepN back i p).getD ((0 : ℤ), (0 : ℤ)), ?_⟩
    intro i hi
    have hsplit : stepN back (back.rows * back.cols + 1) p =
        (stepN back i p).bind (stepN back (back.rows * back.cols + 1 - i)) := by
      rw [← stepN_add]
      congr 1
      omega
    cases hsi : stepN back i p with
    | none => rw [hsplit, hsi] at hstep; simp at hstep
    | some w => simp [hsi]
  have hedge : ∀ i, i ≤ back.rows * back.cols → stepPos back (f i) = some (f (i + 1)) := by
    intro i hi
    have h1 : stepN back (i + 1) p = (stepN back i p).bind (stepN back 1) := stepN_add back i 1 p
    rw [hsome (i + 1) (by omega), hsome i (by omega)] at h1
    simpa [stepN_one] using h1.symm
  have hbound : ∀ i, i ≤ back.rows * back.cols → back.inBounds (f i).1 (f i).2 := by
    intro i hi
    exact stepPos_some_inBounds back (f i) (f (i + 1)) (hedge i hi)
  have hinj : ∀ i j, i ≤ back.rows * back.cols → j ≤ back.rows * back.cols → i < j →
      f i ≠ f j := by
    intro i j hi hj hij heq
    have h1 : stepN back j p = (stepN back i p).bind (stepN back (j - i)) := by
      rw [← stepN_add]
      congr 1
      omega
    rw [hsome j (by omega), hsome i (by omega)] at h1
    have h2 : stepN back (j - i) (f i) = some (f i) := by
      rw [← heq] at h1
      simpa using h1.symm
    obtain ⟨k, hk⟩ : ∃ k, j - i = k + 1 := ⟨j - i - 1, by omega⟩
    rw [hk] at h2
    exact hnc (f i) (stepN_transGen back k (f i) (f i) h2)
  have hcard :
      (Finset.range (back.rows * back.cols + 1)).card ≤
        ((Finset.Ico (0 : ℤ) (back.rows : ℤ)) ×ˢ (Finset.Ico (0 : ℤ) (back.cols : ℤ))).card := by
    apply Finset.card_le_card_of_injOn f
    · intro i hi
      rw [Finset.mem_range] at hi
      have hb := hbound i (by omega)
      rw [Finset.mem_product, Finset.mem_Ico, Finset.mem_Ico]
      exact ⟨⟨hb.1, hb.2.1⟩, ⟨hb.2.2.1, hb.2.2.2⟩⟩
    · intro i hi j hj hij2
      simp only [Finset.coe_range, Set.mem_Iio] at hi hj
      by_contra hne
      rcases Nat.lt_or_ge i j with h | h
      · exact hinj i j (by omega) (by omega) h hij2
      · have hlt : j < i := by omega
        exact hinj j i (by omega) (by omega) hlt hij2.symm
  rw [Finset.card_range, Finset.card_product, Int.card_Ico, Int.card_Ico] at hcard
  simp only [sub_zero, Int.toNat_natCast] at hcard
  exact Nat.not_succ_le_self _ hcard

/-- Witness for C9 on the 1×1 all-terminal backlink grid, which has no
cycles since no cell has an outgoing move. -/
theorem C9_acyclic_walks_terminate_witness :
    walkEnds backZero (backZero.rows * backZero.cols) (0, 0) = true :=
  C9_acyclic_walks_terminate backZero (0, 0) (by
    have hstep : ∀ q : ℤ × ℤ, stepPos backZero q = none := by
      intro q
      by_cases hb : backZero.inBounds q.1 q.2
      · have hget : backZero.get q.1 q.2 = 0 := by
          simp only [Grid.get]
          rw [if_pos hb]
          rfl
        simp [stepPos, hget]
      · simp only [stepPos]
        rw [get_eq_nodata_of_not_inBounds backZero q.1 q.2 hb]
        simp
    intro q hq
    cases hq with
    | single h =>
      simp only [stepRel, hstep] at h
      exact Option.noConfusion h
    | tail h1 h2 =>
      simp only [stepRel, hstep] at h2
      exact Option.noConfusion h2)
